import Mathlib

/-!
# Verification of the enklayve retrieval-and-generation core

A shallow embedding, in Lean 4, of the algorithmic core of the `enklayve`
application (a local document question-answering assistant written in Rust),
together with theorems settling the specification claims about it.

Rust strings are modelled as `List Char`; Rust byte lengths and byte-offset
slicing are modelled explicitly through UTF-8 character sizes
(`Char.utf8Size`), so that the byte/character distinctions of the source are
preserved.  `f32`/`f64` arithmetic is idealised as exact arithmetic over `ℚ`
(for rank-fusion scores and similarity fractions) or `ℝ` (for cosine
similarity, which needs a square root).  Fallible Rust functions returning
`anyhow::Result` are modelled with `Except`; a Rust panic (out-of-bounds or
non-character-boundary slicing) is modelled as `Option.none`.

External collaborators (the llama.cpp model, the fastembed model, SQLite) are
modelled as oracle parameters: an abstract sampler, tokenizer, decoder and
callback for the generation loop, an abstract per-item embedding function for
the embedding pipeline, and the two already-computed result lists for hybrid
search.
-/

namespace Enklayve

/-! ## Basic string-model utilities -/

/-- Rust `str::len()`: the UTF-8 byte length of a string. -/
def byteLen (s : List Char) : Nat := (s.map Char.utf8Size).sum

/-- Splits a character list into the maximal runs of characters satisfying
`keep`, dropping the separators.  `acc` is the current run, reversed. -/
def splitRunsAux (keep : Char → Bool) : List Char → List Char → List (List Char)
  | [], acc => if acc.isEmpty then [] else [acc.reverse]
  | c :: cs, acc =>
    if keep c then splitRunsAux keep cs (c :: acc)
    else if acc.isEmpty then splitRunsAux keep cs []
    else acc.reverse :: splitRunsAux keep cs []

def splitRuns (keep : Char → Bool) (s : List Char) : List (List Char) :=
  splitRunsAux keep s []

/-- Model of the `unicode_words()` segmentation used by `chunk_text`
(`documents.rs`): maximal runs of alphanumeric characters.  This matches the
UAX#29 segmenter on the plain alphanumeric-and-whitespace text used in the
concrete witnesses below. -/
def unicodeWords (s : List Char) : List (List Char) := splitRuns Char.isAlphanum s

/-- Rust `str::split_whitespace()`. -/
def splitWhitespaceChars (s : List Char) : List (List Char) :=
  splitRuns (fun c => !c.isWhitespace) s

/-- Rust `str::trim()`. -/
def trimChars (s : List Char) : List Char :=
  ((s.dropWhile Char.isWhitespace).reverse.dropWhile Char.isWhitespace).reverse

/-- Rust `[&str]::join(" ")`. -/
def joinSpace : List (List Char) → List Char
  | [] => []
  | [w] => w
  | w :: ws => w ++ ' ' :: joinSpace ws

/-- Boolean test that `pat` occurs at the head of `s`. -/
def isPrefixChars : List Char → List Char → Bool
  | [], _ => true
  | _ :: _, [] => false
  | a :: as, b :: bs => a == b && isPrefixChars as bs

/-- Rust `str::contains(needle)`: `needle` occurs as a contiguous substring of
`hay`.  (For valid UTF-8 data Rust's byte-level search can only match at
character boundaries, so a character-aligned search is an exact model.) -/
def containsSub (hay needle : List Char) : Bool :=
  match hay with
  | [] => needle.isEmpty
  | _ :: rest => isPrefixChars needle hay || containsSub rest needle

/-- Rust `str::split("\n\n")`: leftmost non-overlapping matches of the
blank-line separator.  `acc` is the current piece, reversed. -/
def splitParasAux : List Char → List Char → List (List Char)
  | [], acc => [acc.reverse]
  | '\n' :: '\n' :: rest, acc => acc.reverse :: splitParasAux rest []
  | c :: rest, acc => splitParasAux rest (c :: acc)

def splitParas (s : List Char) : List (List Char) := splitParasAux s []

/-- Rust `str::lines().count()`: zero for the empty string, otherwise the
number of `'\n'`s plus one when the string does not end in `'\n'`. -/
def linesCount (s : List Char) : Nat :=
  if s.isEmpty then 0
  else (s.filter (· == '\n')).length + (if s.getLast? == some '\n' then 0 else 1)

def startsWithHash : List Char → Bool
  | '#' :: _ => true
  | _ => false

def endsWithDot (s : List Char) : Bool :=
  match s.getLast? with
  | some '.' => true
  | _ => false

/-! ## Chunker (`documents.rs`, `chunk_text`, lines 577–667) -/

/-- The three `anyhow::bail!` validation failures of `chunk_text`. -/
inductive ChunkError where
  | zeroChunkSize
  | overlapNotLessThanChunkSize
  | chunkSizeTooLarge
deriving DecidableEq

/-- The blank-line separator re-inserted between accumulated paragraphs. -/
def nlnl : List Char := ['\n', '\n']

def endsWithNlNl (s : List Char) : Bool :=
  match s.reverse with
  | '\n' :: '\n' :: _ => true
  | _ => false

/-- Running state of `chunk_text`'s paragraph loop: the closed chunks, the
chunk under construction, its tracked word count, and the last seen heading. -/
structure ChunkAcc where
  chunks : List (List Char)
  current : List Char
  currentCount : Nat
  lastHeading : List Char
deriving DecidableEq

/-- One iteration of the `for paragraph in paragraphs` loop of `chunk_text`
(`documents.rs` lines 601–643), translated clause by clause. -/
def chunkStep (chunkSize overlap : Nat) (acc : ChunkAcc) (para : List Char) : ChunkAcc :=
  let trimmed := trimChars para
  if trimmed.isEmpty then acc
  else
    let isHeading := startsWithHash trimmed ||
      (decide (byteLen trimmed < 100) && (linesCount trimmed == 1) && !endsWithDot trimmed)
    let lastHeading := if isHeading then trimmed else acc.lastHeading
    let paraCount := (unicodeWords trimmed).length
    let acc1 : ChunkAcc :=
      if acc.currentCount + paraCount > chunkSize ∧ acc.currentCount > 0 then
        let overlapWords :=
          if acc.currentCount > overlap then
            let ws := unicodeWords acc.current
            joinSpace (ws.drop (ws.length - overlap))
          else acc.current
        let headPart :=
          if !lastHeading.isEmpty && !containsSub overlapWords lastHeading then
            lastHeading ++ nlnl
          else []
        let newCur := headPart ++ overlapWords ++ nlnl
        { chunks := acc.chunks ++ [acc.current]
          current := newCur
          currentCount := (unicodeWords newCur).length
          lastHeading := lastHeading }
      else { acc with lastHeading := lastHeading }
    let cur2 :=
      if !acc1.current.isEmpty && !endsWithNlNl acc1.current then acc1.current ++ nlnl
      else acc1.current
    { acc1 with
      current := cur2 ++ trimmed
      currentCount := acc1.currentCount + paraCount }

/-- The pure word-window fallback loop of `chunk_text` (`documents.rs` lines
652–663).  The hypothesis `overlap < chunkSize` is exactly what the validated
parameters guarantee at the call site, and is what makes the stride
`chunkSize - overlap` positive, hence the loop terminating. -/
def fallbackChunks (words : List (List Char)) (chunkSize overlap : Nat)
    (h : overlap < chunkSize) (start : Nat) : List (List Char) :=
  if hlt : start < words.length then
    let e := min (start + chunkSize) words.length
    let chunk := joinSpace ((words.drop start).take (e - start))
    if e ≥ words.length then [chunk]
    else chunk :: fallbackChunks words chunkSize overlap h (start + (chunkSize - overlap))
  else []
termination_by words.length - start
decreasing_by
  have : 0 < chunkSize - overlap := by omega
  omega

/-- The body of `chunk_text` after parameter validation (`documents.rs` lines
591–666): the whitespace early return, the paragraph loop, the final partial
chunk, and the word-window fallback. -/
def chunkCore (text : List Char) (chunkSize overlap : Nat) (h : overlap < chunkSize) :
    List (List Char) :=
  if (trimChars text).isEmpty then []
  else
    let paragraphs := splitParas text
    let acc := paragraphs.foldl (chunkStep chunkSize overlap) ⟨[], [], 0, []⟩
    let chunks :=
      if !(trimChars acc.current).isEmpty then acc.chunks ++ [acc.current] else acc.chunks
    if chunks.isEmpty then
      let words := unicodeWords text
      if words.isEmpty then []
      else fallbackChunks words chunkSize overlap h 0
    else chunks

/-- `chunk_text(text, chunk_size, overlap)` (`documents.rs` lines 577–667). -/
def chunkText (text : List Char) (chunkSize overlap : Nat) :
    Except ChunkError (List (List Char)) :=
  if chunkSize = 0 then .error .zeroChunkSize
  else if hov : overlap ≥ chunkSize then .error .overlapNotLessThanChunkSize
  else if chunkSize > 10000 then .error .chunkSizeTooLarge
  else .ok (chunkCore text chunkSize overlap (by omega))

end Enklayve

namespace Enklayve

/-! ## Claims C2 and C8 (chunker) -/

/-- Does some chunk other than the final one exceed `chunkSize` words? -/
def overSizedNonFinal (r : Except ChunkError (List (List Char))) (chunkSize : Nat) : Bool :=
  match r with
  | .error _ => false
  | .ok chunks => chunks.dropLast.any (fun c => chunkSize < (unicodeWords c).length)

/-- Three paragraphs of 8, 8 and 1 words: with `chunk_size = 10`,
`overlap = 5` the overlap carry plus heading re-prepending make the middle
chunk 21 words long. -/
def c2Text : List Char :=
  ("a1 a2 a3 a4 a5 a6 a7 a8\n\nb1 b2 b3 b4 b5 b6 b7 b8\n\nc1").data

/-- C2, counterexample: with the valid parameters `chunk_size = 10`,
`overlap = 5` (`5 < 10 ≤ 10000`), `chunk_text` produces a chunk that is not
the final one and has 21 > 10 words, refuting "every chunk it returns, except
the final one, has word count at most chunk_size".  (The overlap words carried
forward, the re-prepended heading and the next paragraph accumulate in one
chunk that is only closed later.) -/
theorem c2_counterexample :
    5 < 10 ∧ 10 ≤ 10000 ∧ overSizedNonFinal (chunkText c2Text 10 5) 10 = true := by
  refine ⟨by omega, by omega, ?_⟩
  decide

/-- C2, amended: for every text and all parameters with `overlap < chunk_size`
and `chunk_size` within the accepted upper bound, `chunk_text` terminates and
returns a result (no error and no divergence); the per-chunk word-count bound
of the original claim does not hold (see `c2_counterexample`). -/
theorem c2_amended (text : List Char) (chunkSize overlap : Nat)
    (h1 : overlap < chunkSize) (h2 : chunkSize ≤ 10000) :
    ∃ chunks, chunkText text chunkSize overlap = .ok chunks := by
  refine ⟨chunkCore text chunkSize overlap h1, ?_⟩
  unfold chunkText
  split
  · omega
  · split
    · omega
    · split
      · omega
      · rfl

/-- Witness for `c2_amended` at a concrete input. -/
theorem c2_amended_witness :
    ∃ chunks, chunkText ("hello world").data 3 1 = .ok chunks :=
  c2_amended ("hello world").data 3 1 (by omega) (by omega)

/-- C8: `chunk_text` fails exactly when `overlap ≥ chunk_size` or
`chunk_size > 10000` (the `chunk_size == 0` bail is subsumed: `overlap ≥ 0`
always holds); with valid parameters, whitespace-only input yields `Ok` of
the empty list, not an error. -/
theorem c8_invalid_params :
    (∀ (text : List Char) (chunkSize overlap : Nat),
       (chunkText text chunkSize overlap).isOk = false ↔
         (overlap ≥ chunkSize ∨ chunkSize > 10000)) ∧
    (∀ (text : List Char) (chunkSize overlap : Nat),
       overlap < chunkSize → chunkSize ≤ 10000 → (trimChars text).isEmpty = true →
       chunkText text chunkSize overlap = .ok []) := by
  constructor
  · intro text cs ov
    unfold chunkText
    split
    · simp [Except.isOk, Except.toBool]; omega
    · split
      · simp [Except.isOk, Except.toBool]; omega
      · split
        · simp [Except.isOk, Except.toBool]; omega
        · simp [Except.isOk, Except.toBool]; omega
  · intro text cs ov h1 h2 hws
    unfold chunkText
    split
    · omega
    · split
      · omega
      · split
        · omega
        · unfold chunkCore
          simp [hws]

/-- Witness for `c8_invalid_params`: a whitespace-only input with valid
parameters yields the empty chunk list. -/
theorem c8_witness : chunkText ("   \n\n  ").data 10 2 = .ok [] :=
  c8_invalid_params.2 ("   \n\n  ").data 10 2 (by omega) (by omega) (by decide)

end Enklayve

namespace Enklayve

/-! ## Embeddings (`embeddings.rs`) -/

/-- `Embedding { vector, dimension }` (`embeddings.rs` lines 7–11), with the
`f32` components idealised as real numbers. -/
structure EmbeddingR where
  vector : List ℝ
  dimension : ℕ

/-- `Embedding::new` sets `dimension = vector.len()`. -/
def EmbeddingR.new (v : List ℝ) : EmbeddingR := ⟨v, v.length⟩

noncomputable def dotProduct (a b : List ℝ) : ℝ := (List.zipWith (· * ·) a b).sum

noncomputable def magnitude (v : List ℝ) : ℝ := Real.sqrt (v.map (fun x => x * x)).sum

open Classical in
/-- `Embedding::cosine_similarity` (`embeddings.rs` lines 20–38): returns `0`
on a dimension mismatch, returns `0` when either magnitude is zero, and
otherwise divides the dot product by the product of the magnitudes. -/
noncomputable def cosineSimilarity (a b : EmbeddingR) : ℝ :=
  if a.dimension ≠ b.dimension then 0
  else
    let d := dotProduct a.vector b.vector
    let ma := magnitude a.vector
    let mb := magnitude b.vector
    if ma = 0 ∨ mb = 0 then 0 else d / (ma * mb)

theorem zipWith_mul_self (l : List ℝ) :
    List.zipWith (· * ·) l l = l.map (fun x => x * x) := by
  induction l with
  | nil => rfl
  | cons x xs ih => simp [ih]

theorem sq_sum_nonneg (l : List ℝ) : 0 ≤ (l.map (fun x => x * x)).sum := by
  apply List.sum_nonneg
  intro x hx
  obtain ⟨y, _, rfl⟩ := List.mem_map.mp hx
  exact mul_self_nonneg y

theorem sq_sum_pos (l : List ℝ) (x : ℝ) (hx : x ∈ l) (hx0 : x ≠ 0) :
    0 < (l.map (fun x => x * x)).sum := by
  have h1 : x * x ∈ l.map (fun x => x * x) := List.mem_map_of_mem _ hx
  have h2 : x * x ≤ (l.map (fun x => x * x)).sum := by
    apply List.single_le_sum _ _ h1
    intro y hy
    obtain ⟨z, _, rfl⟩ := List.mem_map.mp hy
    exact mul_self_nonneg z
  have h3 : 0 < x * x := mul_self_pos.mpr hx0
  linarith

/-! ## Claim C6 (cosine similarity) -/

/-- C6: for every embedding with some non-zero component,
`cosine_similarity(v, v) = 1`; and for embeddings of different stored
dimension, `cosine_similarity` returns exactly `0` (the function is total, so
it never errors; the real-number idealisation of the `f32` arithmetic). -/
theorem c6_cosine :
    (∀ v : EmbeddingR, (∃ x ∈ v.vector, x ≠ 0) → cosineSimilarity v v = 1) ∧
    (∀ a b : EmbeddingR, a.dimension ≠ b.dimension → cosineSimilarity a b = 0) := by
  constructor
  · intro v ⟨x, hx, hx0⟩
    have hs : 0 < (v.vector.map (fun x => x * x)).sum := sq_sum_pos v.vector x hx hx0
    have hm : 0 < magnitude v.vector := Real.sqrt_pos.mpr hs
    unfold cosineSimilarity
    simp only [ne_eq, not_true_eq_false, if_false, ite_not]
    rw [if_neg (by push_neg; exact ⟨ne_of_gt hm, ne_of_gt hm⟩)]
    unfold dotProduct
    rw [zipWith_mul_self]
    unfold magnitude
    rw [Real.mul_self_sqrt (le_of_lt hs)]
    exact div_self (ne_of_gt hs)
  · intro a b hab
    unfold cosineSimilarity
    rw [if_pos hab]

/-- Witness for `c6_cosine`: the one-dimensional embedding `[1]` has cosine
similarity `1` with itself, and against a two-dimensional embedding the
similarity is `0`. -/
theorem c6_witness :
    cosineSimilarity ⟨[1], 1⟩ ⟨[1], 1⟩ = 1 ∧ cosineSimilarity ⟨[1], 1⟩ ⟨[1, 0], 2⟩ = 0 :=
  ⟨c6_cosine.1 ⟨[1], 1⟩ ⟨1, by simp, one_ne_zero⟩, c6_cosine.2 _ _ (by simp)⟩

end Enklayve


namespace Enklayve

/-! ## Parallel embedding pipeline (`embeddings.rs`, lines 115–202) -/

/-- The batch-size selection of `generate_embeddings_parallel`
(`embeddings.rs` lines 133–139): `128` for more than 1000 chunks, `64` for
more than 100, `32` otherwise. -/
def embBatchSize (total : Nat) : Nat :=
  if total > 1000 then 128 else if total > 100 then 64 else 32

/-- The batch size as the specification sentence words it: "32 for <100
items, 64 for <1000, 128 above".  Stated only to be compared against
`embBatchSize`, the definition taken from the source. -/
def specBatchSize (total : Nat) : Nat :=
  if total < 100 then 32 else if total < 1000 then 64 else 128

/-- Rust `slice::chunks(k)`, written with an explicit fuel so that it is
structurally recursive; `fuel = l.length` always suffices because each step
consumes at least one element when `0 < k`. -/
def chunksAux (k : Nat) : Nat → List α → List (List α)
  | 0, _ => []
  | _, [] => []
  | fuel + 1, c :: cs => (c :: cs).take k :: chunksAux k fuel ((c :: cs).drop k)

/-- Rust `slice::chunks(k)` for `k > 0`: consecutive batches of `k` elements,
the last possibly shorter. -/
def chunksExact (k : Nat) (l : List α) : List (List α) := chunksAux k l.length l

/-- `generate_embeddings_parallel` (`embeddings.rs` lines 115–202), with the
per-item embedding function of the underlying model abstracted as `f`
(`embed_batch` is order-preserving per item), and rayon's order-preserving
indexed `collect` modelled by flattening the per-batch results in batch
order.  Logging, timing and the progress callback (which does not influence
the returned value) are omitted. -/
def generateEmbeddingsParallel (f : α → β) (texts : List α) : List β :=
  ((chunksExact (embBatchSize texts.length) texts).map
    (fun batch => batch.map f)).flatten

theorem chunksAux_flatten (k : Nat) (hk : 0 < k) :
    ∀ (fuel : Nat) (l : List α), l.length ≤ fuel → (chunksAux k fuel l).flatten = l := by
  intro fuel
  induction fuel with
  | zero =>
    intro l hl
    have hnil : l = [] := List.length_eq_zero.mp (by omega)
    subst hnil
    rfl
  | succ n ih =>
    intro l hl
    match l with
    | [] => rfl
    | c :: cs =>
      have hdrop : ((c :: cs).drop k).length ≤ n := by
        simp only [List.length_drop, List.length_cons]
        simp only [List.length_cons] at hl
        omega
      simp only [chunksAux, List.flatten_cons, ih _ hdrop, List.take_append_drop]

theorem chunksExact_flatten (k : Nat) (hk : 0 < k) (l : List α) :
    (chunksExact k l).flatten = l :=
  chunksAux_flatten k hk l.length l le_rfl

theorem chunksAux_length_le (k : Nat) :
    ∀ (fuel : Nat) (l : List α), ∀ b ∈ chunksAux k fuel l, b.length ≤ k := by
  intro fuel
  induction fuel with
  | zero => intro l b hb; simp [chunksAux] at hb
  | succ n ih =>
    intro l b hb
    match l with
    | [] => simp [chunksAux] at hb
    | c :: cs =>
      simp only [chunksAux, List.mem_cons] at hb
      rcases hb with rfl | hb
      · simp [List.length_take]
      · exact ih _ b hb

/-! ## Claim C7 (parallel embedding batching) -/

/-- C7, counterexample: at exactly 100 input items the code picks batch size
32 (`total_chunks > 100` is false), while the claim's "64 when there are
fewer than 1000 items" (and not fewer than 100) demands 64; the first batch
of a 100-item input therefore has 32 elements, not 64. -/
theorem c7_counterexample :
    embBatchSize 100 = 32 ∧ specBatchSize 100 = 64 ∧
    (chunksExact (embBatchSize 100) (List.replicate 100 (0 : Nat))).head?.map
      List.length = some 32 := by
  refine ⟨by decide, by decide, ?_⟩
  decide

/-- C7, amended: `generate_embeddings_parallel` partitions its input into
batches of size 32 when there are **at most** 100 items, 64 when there are at
most 1000 (and more than 100), and 128 above that; every batch of the
partition has at most that many elements, and the per-item embeddings are
concatenated back in the original input order. -/
theorem c7_amended :
    (∀ (α β : Type) (f : α → β) (texts : List α),
       generateEmbeddingsParallel f texts = texts.map f) ∧
    (∀ n : Nat, (n ≤ 100 → embBatchSize n = 32) ∧
      (100 < n → n ≤ 1000 → embBatchSize n = 64) ∧
      (1000 < n → embBatchSize n = 128)) ∧
    (∀ (α : Type) (texts : List α) b,
       b ∈ chunksExact (embBatchSize texts.length) texts →
       b.length ≤ embBatchSize texts.length) := by
  have hpos : ∀ n, 0 < embBatchSize n := by
    intro n
    unfold embBatchSize
    split
    · omega
    · split <;> omega
  refine ⟨?_, ?_, ?_⟩
  · intro α β f texts
    unfold generateEmbeddingsParallel
    rw [← List.map_flatten, chunksExact_flatten _ (hpos _)]
  · intro n
    refine ⟨?_, ?_, ?_⟩ <;>
      (intros; unfold embBatchSize; split <;> first | omega | (split <;> omega))
  · intro α texts b hb
    exact chunksAux_length_le _ _ texts b hb

/-- Witness for `c7_amended` at concrete inputs. -/
theorem c7_witness :
    generateEmbeddingsParallel (fun n => n + 1) [1, 2, 3] = [2, 3, 4] ∧
    embBatchSize 1001 = 128 := by
  constructor
  · rw [c7_amended.1 Nat Nat]
    decide
  · exact (c7_amended.2.1 1001).2.2 (by omega)

end Enklayve

namespace Enklayve

/-! ## Hybrid retrieval (`vector_search.rs`, `hybrid_search`, lines 227–282)

The two already-computed result lists (dense/semantic from
`search_similar_chunks`, sparse/lexical from `keyword_search`) are taken as
parameters; both queries return each chunk at most once, which the claim
theorem records as `Nodup` hypotheses on the chunk ids. -/

/-- `SearchResult` (`vector_search.rs` lines 5–13), with the `f32` score
idealised as a rational. -/
structure SearchResult where
  chunk_id : Int
  document_id : Int
  chunk_text : List Char
  chunk_index : Int
  similarity : ℚ
  file_name : List Char
deriving DecidableEq

/-- `*rrf_scores.entry(id).or_insert(0.0) += delta` on an insertion-ordered
association list. -/
def updateScore : List (Int × ℚ) → Int → ℚ → List (Int × ℚ)
  | [], id, d => [(id, d)]
  | (k, s) :: rest, id, d =>
    if k = id then (k, s + d) :: rest else (k, s) :: updateScore rest id d

/-- `rrf_scores.get(&id)`, defaulting to `0`. -/
def lookupScore : List (Int × ℚ) → Int → ℚ
  | [], _ => 0
  | (k, s) :: rest, id => if k = id then s else lookupScore rest id

/-- One `for (rank, result) in list.iter().enumerate()` pass of
`hybrid_search` (`vector_search.rs` lines 257–267): each result contributes
`w * (1 / (60 + rank + 1))` to its chunk's fused score (`w = 1.2` for the
dense list, `w = 1` for the lexical list). -/
def addListScores (w : ℚ) : List SearchResult → Nat → List (Int × ℚ) → List (Int × ℚ)
  | [], _, m => m
  | r :: rs, rank, m =>
    addListScores w rs (rank + 1) (updateScore m r.chunk_id (w * (1 / (60 + (rank : ℚ) + 1))))

/-- `chunk_map.entry(id).or_insert(result.clone())`: keep the first result
seen for each chunk id, in first-occurrence order. -/
def insertFirst (acc : List SearchResult) (r : SearchResult) : List SearchResult :=
  if acc.any (fun x => x.chunk_id == r.chunk_id) then acc else acc ++ [r]

def candidateList (sem lex : List SearchResult) : List SearchResult :=
  (sem ++ lex).foldl insertFirst []

/-- The fused candidates of `hybrid_search` (lines 253–275): every distinct
chunk of either list, carrying its summed RRF score as `similarity`.
(`HashMap` iteration order is arbitrary; it is fixed here to first-occurrence
order, which the sort below makes irrelevant up to ties.) -/
def fusedCandidates (sem lex : List SearchResult) : List SearchResult :=
  let scores := addListScores 1 lex 0 (addListScores (6/5) sem 0 [])
  (candidateList sem lex).map (fun r => { r with similarity := lookupScore scores r.chunk_id })

/-- The descending-by-score comparison used by the final
`sort_by(|a, b| b.similarity.partial_cmp(&a.similarity))`. -/
def scoreDescBool (a b : SearchResult) : Bool := decide (b.similarity ≤ a.similarity)

/-- `hybrid_search` (`vector_search.rs` lines 227–282) given the two result
lists: the two degenerate early returns, then RRF fusion, descending sort and
truncation to `top_k`. -/
def hybridSearch (sem lex : List SearchResult) (topK : Nat) : List SearchResult :=
  if sem.isEmpty && lex.isEmpty then []
  else if sem.isEmpty then lex.take topK
  else if lex.isEmpty then sem.take topK
  else ((fusedCandidates sem lex).mergeSort scoreDescBool).take topK

/-- The closed-form fused score the claim describes: `1/(60 + r)` for the
1-based rank `r` of the chunk in each list containing it, the dense
contribution weighted by `1.2`, summed. -/
def rankOf (l : List SearchResult) (id : Int) : Option Nat :=
  l.findIdx? (fun r => r.chunk_id == id)

def rrfScore (sem lex : List SearchResult) (id : Int) : ℚ :=
  (match rankOf sem id with
   | some j => (6/5) * (1 / (60 + (j : ℚ) + 1))
   | none => 0) +
  (match rankOf lex id with
   | some j => 1 / (60 + (j : ℚ) + 1)
   | none => 0)

theorem lookupScore_updateScore (m : List (Int × ℚ)) (id id' : Int) (d : ℚ) :
    lookupScore (updateScore m id d) id' =
      lookupScore m id' + (if id' = id then d else 0) := by
  induction m with
  | nil =>
    by_cases h : id' = id
    · subst h
      simp [updateScore, lookupScore]
    · rw [if_neg h]
      simp only [updateScore, lookupScore]
      rw [if_neg (fun hh => h hh.symm)]
      simp
  | cons p rest ih =>
    obtain ⟨k, s⟩ := p
    by_cases hk : k = id
    · subst hk
      simp only [updateScore, if_pos rfl, lookupScore]
      by_cases h : k = id'
      · rw [if_pos h, if_pos h, if_pos h.symm]
      · rw [if_neg h, if_neg h, if_neg (fun hh => h hh.symm)]
        ring
    · simp only [updateScore, if_neg hk, lookupScore]
      by_cases h : k = id'
      · rw [if_pos h, if_pos h, if_neg (fun hh => hk (h.trans hh))]
        ring
      · rw [if_neg h, if_neg h, ih]

theorem rankOf_eq_none (l : List SearchResult) (id : Int) :
    rankOf l id = none ↔ ∀ r ∈ l, r.chunk_id ≠ id := by
  unfold rankOf
  rw [List.findIdx?_eq_none_iff]
  constructor
  · intro h r hr
    have := h r hr
    simpa using this
  · intro h r hr
    simpa using h r hr

theorem lookupScore_addListScores (w : ℚ) (rs : List SearchResult) :
    ∀ (rank : Nat) (m : List (Int × ℚ)) (id : Int),
      (rs.map (·.chunk_id)).Nodup →
      lookupScore (addListScores w rs rank m) id =
        lookupScore m id +
          (match rankOf rs id with
           | some j => w * (1 / (60 + ((rank + j : Nat) : ℚ) + 1))
           | none => 0) := by
  induction rs with
  | nil =>
    intro rank m id _
    simp [addListScores, rankOf, List.findIdx?]
  | cons r rs ih =>
    intro rank m id hnd
    simp only [List.map_cons, List.nodup_cons] at hnd
    obtain ⟨hnotin, hnd'⟩ := hnd
    simp only [addListScores]
    rw [ih (rank + 1) _ id hnd']
    by_cases hid : r.chunk_id = id
    · subst hid
      have hnone : rankOf rs r.chunk_id = none := by
        rw [rankOf_eq_none]
        intro x hx hcontra
        exact hnotin (hcontra ▸ List.mem_map_of_mem (·.chunk_id) hx)
      have hself : rankOf (r :: rs) r.chunk_id = some 0 := by
        unfold rankOf
        rw [List.findIdx?_cons]
        simp
      rw [hnone, hself, lookupScore_updateScore]
      simp
    · have hcons : rankOf (r :: rs) id = (rankOf rs id).map (· + 1) := by
        unfold rankOf
        rw [List.findIdx?_cons]
        simp [hid]
      rw [hcons, lookupScore_updateScore, if_neg (fun h => hid h.symm)]
      cases hr : rankOf rs id with
      | none => simp
      | some j =>
        show _ = lookupScore m id + w * (1 / (60 + ((rank + (j + 1) : Nat) : ℚ) + 1))
        push_cast
        ring

/-- The fused score attached by `hybrid_search` to any candidate agrees with
the claim's closed-form RRF sum, provided each input list mentions each chunk
at most once. -/
theorem fusedCandidates_score (sem lex : List SearchResult)
    (hsem : (sem.map (·.chunk_id)).Nodup) (hlex : (lex.map (·.chunk_id)).Nodup) :
    ∀ r ∈ fusedCandidates sem lex, r.similarity = rrfScore sem lex r.chunk_id := by
  intro r hr
  unfold fusedCandidates at hr
  obtain ⟨r₀, _, rfl⟩ := List.mem_map.mp hr
  simp only
  rw [lookupScore_addListScores 1 lex 0 _ _ hlex,
    lookupScore_addListScores (6/5) sem 0 _ _ hsem]
  unfold rrfScore
  simp only [lookupScore]
  cases rankOf sem r₀.chunk_id <;> cases rankOf lex r₀.chunk_id <;>
    simp [Nat.zero_add]

theorem hasId_insertFirst (acc : List SearchResult) (r : SearchResult) (id : Int) :
    (∃ x ∈ insertFirst acc r, x.chunk_id = id) ↔
      (∃ x ∈ acc, x.chunk_id = id) ∨ r.chunk_id = id := by
  unfold insertFirst
  split
  · rename_i hany
    rw [List.any_eq_true] at hany
    obtain ⟨x, hx, hxr⟩ := hany
    rw [beq_iff_eq] at hxr
    constructor
    · intro h
      exact Or.inl h
    · rintro (h | h)
      · exact h
      · exact ⟨x, hx, hxr.trans h⟩
  · constructor
    · rintro ⟨x, hx, hxid⟩
      rcases List.mem_append.mp hx with hx' | hx'
      · exact Or.inl ⟨x, hx', hxid⟩
      · rw [List.mem_singleton] at hx'
        subst hx'
        exact Or.inr hxid
    · rintro (⟨x, hx, hxid⟩ | h)
      · exact ⟨x, List.mem_append.mpr (Or.inl hx), hxid⟩
      · exact ⟨r, List.mem_append.mpr (Or.inr (List.mem_singleton.mpr rfl)), h⟩

theorem hasId_foldl_insertFirst (l : List SearchResult) :
    ∀ (acc : List SearchResult) (id : Int),
      (∃ x ∈ l.foldl insertFirst acc, x.chunk_id = id) ↔
        (∃ x ∈ acc, x.chunk_id = id) ∨ (∃ x ∈ l, x.chunk_id = id) := by
  induction l with
  | nil => simp
  | cons r rs ih =>
    intro acc id
    simp only [List.foldl_cons]
    rw [ih, hasId_insertFirst]
    simp only [List.mem_cons]
    constructor
    · rintro ((h | h) | h)
      · exact Or.inl h
      · exact Or.inr ⟨r, Or.inl rfl, h⟩
      · obtain ⟨x, hx, hxid⟩ := h
        exact Or.inr ⟨x, Or.inr hx, hxid⟩
    · rintro (h | ⟨x, (rfl | hx), hxid⟩)
      · exact Or.inl (Or.inl h)
      · exact Or.inl (Or.inr hxid)
      · exact Or.inr ⟨x, hx, hxid⟩

theorem scoreDescBool_trans (a b c : SearchResult)
    (hab : scoreDescBool a b = true) (hbc : scoreDescBool b c = true) :
    scoreDescBool a c = true := by
  simp only [scoreDescBool, decide_eq_true_eq] at *
  exact le_trans hbc hab

theorem scoreDescBool_total (a b : SearchResult) :
    (scoreDescBool a b || scoreDescBool b a) = true := by
  simp only [scoreDescBool, Bool.or_eq_true, decide_eq_true_eq]
  exact le_total b.similarity a.similarity

/-- Every chunk of the candidate map appears in the fused candidate list with
its id unchanged. -/
theorem mem_fusedCandidates_of (sem lex : List SearchResult) (x : SearchResult)
    (hx : x ∈ candidateList sem lex) :
    ∃ r ∈ fusedCandidates sem lex, r.chunk_id = x.chunk_id := by
  unfold fusedCandidates
  exact ⟨_, List.mem_map_of_mem _ hx, rfl⟩

/-! ## Claim C1 (hybrid search with Reciprocal Rank Fusion) -/

/-- C1: with both result lists empty, `hybrid_search` returns the empty
list; with exactly one non-empty, that list truncated to `top_k` without
fusion; and with both non-empty (each listing a chunk at most once), every
returned result carries the claimed RRF score (`1/(60+r)` per list, dense
weighted `1.2`, summed over the lists containing the chunk), and the output
is a descending-by-fused-score sort of all candidate chunks — the chunks of
either list — truncated to `top_k`. -/
theorem c1_hybrid_rrf :
    (∀ topK : Nat, hybridSearch [] [] topK = []) ∧
    (∀ (lex : List SearchResult) (topK : Nat), lex ≠ [] →
       hybridSearch [] lex topK = lex.take topK) ∧
    (∀ (sem : List SearchResult) (topK : Nat), sem ≠ [] →
       hybridSearch sem [] topK = sem.take topK) ∧
    (∀ (sem lex : List SearchResult) (topK : Nat), sem ≠ [] → lex ≠ [] →
      (sem.map (·.chunk_id)).Nodup → (lex.map (·.chunk_id)).Nodup →
      (∀ r ∈ hybridSearch sem lex topK, r.similarity = rrfScore sem lex r.chunk_id) ∧
      List.Pairwise (fun a b => b.similarity ≤ a.similarity) (hybridSearch sem lex topK) ∧
      (∃ full, full.Perm (fusedCandidates sem lex) ∧
        List.Pairwise (fun a b => b.similarity ≤ a.similarity) full ∧
        hybridSearch sem lex topK = full.take topK) ∧
      (∀ id : Int, (∃ r ∈ fusedCandidates sem lex, r.chunk_id = id) ↔
        (∃ r ∈ sem ++ lex, r.chunk_id = id))) := by
  refine ⟨?_, ?_, ?_, ?_⟩
  · intro topK
    rfl
  · intro lex topK hlex
    unfold hybridSearch
    simp [List.isEmpty_iff, hlex]
  · intro sem topK hsem
    unfold hybridSearch
    simp [List.isEmpty_iff, hsem]
  · intro sem lex topK hsem hlex hndsem hndlex
    have hout : hybridSearch sem lex topK =
        ((fusedCandidates sem lex).mergeSort scoreDescBool).take topK := by
      unfold hybridSearch
      simp [List.isEmpty_iff, hsem, hlex]
    have hperm : ((fusedCandidates sem lex).mergeSort scoreDescBool).Perm
        (fusedCandidates sem lex) := List.mergeSort_perm _ _
    have hsorted : List.Pairwise (fun a b => b.similarity ≤ a.similarity)
        ((fusedCandidates sem lex).mergeSort scoreDescBool) := by
      have h := @List.sorted_mergeSort SearchResult scoreDescBool
        scoreDescBool_trans scoreDescBool_total (fusedCandidates sem lex)
      exact h.imp (fun hab => by
        simpa [scoreDescBool, decide_eq_true_eq] using hab)
    refine ⟨?_, ?_, ?_, ?_⟩
    · intro r hr
      rw [hout] at hr
      have hr' : r ∈ fusedCandidates sem lex :=
        hperm.mem_iff.mp ((List.take_sublist _ _).subset hr)
      exact fusedCandidates_score sem lex hndsem hndlex r hr'
    · rw [hout]
      exact List.Pairwise.sublist (List.take_sublist _ _) hsorted
    · exact ⟨_, hperm, hsorted, hout⟩
    · intro id
      constructor
      · rintro ⟨r, hr, hrid⟩
        unfold fusedCandidates candidateList at hr
        obtain ⟨r₀, hr₀, rfl⟩ := List.mem_map.mp hr
        rcases (hasId_foldl_insertFirst (sem ++ lex) [] id).mp ⟨r₀, hr₀, hrid⟩ with h | h
        · simp at h
        · exact h
      · intro h
        obtain ⟨x, hx, hxid⟩ := (hasId_foldl_insertFirst (sem ++ lex) [] id).mpr (Or.inr h)
        obtain ⟨r, hr, hrid⟩ := mem_fusedCandidates_of sem lex x hx
        exact ⟨r, hr, hrid.trans hxid⟩

/-- Concrete search results used by the hybrid-search witness. -/
def srA : SearchResult := ⟨1, 1, ("alpha").data, 0, 9/10, ("report.pdf").data⟩

def srB : SearchResult := ⟨2, 1, ("beta").data, 1, 8/10, ("report.pdf").data⟩

def srC : SearchResult := ⟨3, 2, ("gamma").data, 0, 5/10, ("notes.txt").data⟩

def srA2 : SearchResult := ⟨1, 1, ("alpha").data, 0, 3/10, ("notes.txt").data⟩

/-- Witness for `c1_hybrid_rrf`: a two-element dense list and a two-element
lexical list sharing chunk 1, fused with `top_k = 2`. -/
theorem c1_witness :
    hybridSearch [] [] 5 = [] ∧
    List.Pairwise (fun a b => b.similarity ≤ a.similarity)
      (hybridSearch [srA, srB] [srC, srA2] 2) ∧
    (∀ r ∈ hybridSearch [srA, srB] [srC, srA2] 2,
       r.similarity = rrfScore [srA, srB] [srC, srA2] r.chunk_id) := by
  have h := c1_hybrid_rrf.2.2.2 [srA, srB] [srC, srA2] 2
    (by simp) (by simp) (by decide) (by decide)
  exact ⟨c1_hybrid_rrf.1 5, h.2.1, h.1⟩

/-! ## Model cache (`model_cache.rs`, `ModelCache::get_or_load`, lines 827–850) -/

/-- Observable events of one `get_or_load` call: a `CachedModel::load` of a
new model, and the drop of the previously cached handle (which happens when
`*self.current_model.lock() = Some(model)` overwrites it). -/
inductive CacheEvent where
  | loadNew (path : String)
  | dropOld
deriving DecidableEq

/-- The mutable state of `ModelCache` relevant to `get_or_load`: the cached
path and the cached handle (abstracted to an id). -/
structure CacheState where
  currentPath : Option String
  currentModel : Option Nat
deriving DecidableEq

/-- `ModelCache::get_or_load` (`model_cache.rs` lines 827–850): on a path
match return `"cached"` without touching the state; otherwise call
`CachedModel::load` (producing `newHandle`) and only then store it, replacing
— and thereby dropping — the old handle.  The returned event list records
the order in which the load and the drop happen. -/
def getOrLoad (st : CacheState) (newHandle : Nat) (path : String) :
    CacheState × String × List CacheEvent :=
  if st.currentPath = some path then (st, "cached", [])
  else
    ({ currentPath := some path, currentModel := some newHandle }, "loaded",
      [CacheEvent.loadNew path] ++ (if st.currentModel.isSome then [CacheEvent.dropOld] else []))

def isDropEv : CacheEvent → Bool
  | .dropOld => true
  | _ => false

def isLoadEv : CacheEvent → Bool
  | .loadNew _ => true
  | _ => false

/-- Whether every eviction in the trace precedes every load (vacuously true
when either is absent). -/
def evictionPrecedesLoad (tr : List CacheEvent) : Bool :=
  match tr.findIdx? isDropEv, tr.findIdx? isLoadEv with
  | some i, some j => decide (i < j)
  | _, _ => true

/-- The number of loaded model handles alive after each event, starting from
`start` handles. -/
def aliveTrace (start : Nat) : List CacheEvent → List Nat
  | [] => [start]
  | .loadNew _ :: rest => start :: aliveTrace (start + 1) rest
  | .dropOld :: rest => start :: aliveTrace (start - 1) rest

def maxAlive (start : Nat) (tr : List CacheEvent) : Nat :=
  (aliveTrace start tr).foldl max 0

/-! ## Claim C3 (model cache eviction order) -/

/-- C3, counterexample: with model 0 loaded for path `"a"`, requesting path
`"b"` produces the event trace `[loadNew "b", dropOld]` — the new model is
loaded **before** the old handle is evicted, and two loaded models are alive
between the load and the store, refuting both "evicts … before loading" and
"at most one loaded model exists at any time". -/
theorem c3_counterexample :
    (getOrLoad ⟨some "a", some 0⟩ 1 "b").2.2 = [.loadNew "b", .dropOld] ∧
    evictionPrecedesLoad (getOrLoad ⟨some "a", some 0⟩ 1 "b").2.2 = false ∧
    maxAlive 1 (getOrLoad ⟨some "a", some 0⟩ 1 "b").2.2 = 2 := by
  refine ⟨?_, ?_, ?_⟩ <;> decide

/-- C3, amended: requesting the currently cached path is a no-op cache hit
(nothing is loaded, the state is unchanged, `"cached"` is returned);
requesting a different path loads the new model **first** and evicts the old
handle only when storing the replacement, so up to two loaded models briefly
coexist during the call, and exactly one model is cached once it returns. -/
theorem c3_amended :
    (∀ (st : CacheState) (h : Nat) (p : String), st.currentPath = some p →
       getOrLoad st h p = (st, "cached", [])) ∧
    (∀ (st : CacheState) (h : Nat) (p : String), st.currentPath ≠ some p →
       (getOrLoad st h p).1 = ⟨some p, some h⟩ ∧
       (getOrLoad st h p).2.1 = "loaded" ∧
       (getOrLoad st h p).2.2 =
         [CacheEvent.loadNew p] ++ (if st.currentModel.isSome then [.dropOld] else []) ∧
       (let start := if st.currentModel.isSome then 1 else 0
        maxAlive start (getOrLoad st h p).2.2 ≤ 2 ∧
        (aliveTrace start (getOrLoad st h p).2.2).getLast? = some 1)) := by
  constructor
  · intro st h p hp
    unfold getOrLoad
    rw [if_pos hp]
  · intro st h p hp
    unfold getOrLoad
    rw [if_neg hp]
    cases hm : st.currentModel <;>
      simp [hm, maxAlive, aliveTrace, Option.isSome]
  
/-- Witness for `c3_amended` at concrete states. -/
theorem c3_witness :
    getOrLoad ⟨some "a", some 0⟩ 7 "a" = (⟨some "a", some 0⟩, "cached", []) ∧
    (getOrLoad ⟨some "a", some 0⟩ 7 "b").1 = ⟨some "b", some 7⟩ :=
  ⟨c3_amended.1 ⟨some "a", some 0⟩ 7 "a" rfl,
   (c3_amended.2 ⟨some "a", some 0⟩ 7 "b" (by simp)).1⟩

/-! ## Degeneracy detectors (`model_cache.rs`, lines 16–131) -/

/-- Rust `str::to_lowercase()` (the detectors only apply it to generated
text; `Char.toLower` models the per-character mapping). -/
def toLowerStr (s : List Char) : List Char := s.map Char.toLower

/-- Rust `&s[i..]` by byte offset: `none` models the panic when `i` does not
fall on a character boundary (or exceeds the length). -/
def byteDrop : List Char → Nat → Option (List Char)
  | s, 0 => some s
  | [], _ + 1 => none
  | c :: rest, i + 1 =>
    if c.utf8Size ≤ i + 1 then byteDrop rest (i + 1 - c.utf8Size) else none

/-- Rust `&s[..i]` by byte offset, with the same panic model. -/
def byteTake : List Char → Nat → Option (List Char)
  | _, 0 => some []
  | [], _ + 1 => none
  | c :: rest, i + 1 =>
    if c.utf8Size ≤ i + 1 then (byteTake rest (i + 1 - c.utf8Size)).map (c :: ·) else none

/-- Rust `&s[a..b]` (for `a ≤ b`). -/
def byteSlice (s : List Char) (a b : Nat) : Option (List Char) :=
  match byteDrop s a with
  | none => none
  | some t => byteTake t (b - a)

/-- `similar_text_ratio` (`model_cache.rs` lines 16–37): word-set Jaccard
similarity, with the `f64` ratio idealised as a rational.  The two
`HashSet`s are modelled by deduplicated word lists. -/
def dedupWords (l : List (List Char)) : List (List Char) :=
  l.foldl (fun acc w => if acc.contains w then acc else acc ++ [w]) []

def similarTextFraction (t1 t2 : List Char) : ℚ :=
  let w1 := dedupWords (splitWhitespaceChars t1)
  let w2 := dedupWords (splitWhitespaceChars t2)
  if w1.isEmpty && w2.isEmpty then 1
  else if w1.isEmpty || w2.isEmpty then 0
  else
    let inter := (w1.filter (fun w => w2.contains w)).length
    let uni := w1.length + (w2.filter (fun w => !w1.contains w)).length
    if uni = 0 then 0 else (inter : ℚ) / (uni : ℚ)

/-- Rust `str::matches(pat).count()` for a non-empty literal pattern:
non-overlapping leftmost matches.  (The detectors only use the fixed
non-empty phrases below.) -/
def countOccur (pat : List Char) : List Char → Nat
  | [] => 0
  | c :: rest =>
    if pat ≠ [] ∧ isPrefixChars pat (c :: rest) = true then
      1 + countOccur pat (rest.drop (pat.length - 1))
    else
      countOccur pat rest
termination_by hay => hay.length
decreasing_by
  · simp only [List.length_cons]
    have := List.length_drop (pat.length - 1) rest
    omega
  · simp [List.length_cons]

/-- The fixed filler-phrase list of `detect_filler_loop` (lines 44–56). -/
def fillerPatterns : List (List Char) :=
  [("please let me know").data, ("i'm happy to help").data, ("i'm here to help").data,
   ("feel free to ask").data, ("if you have any").data,
   ("thank you for your patience").data, ("is there anything else").data,
   ("i look forward to").data, ("please feel free").data,
   ("let me know if you").data, ("i hope this helps").data]

/-- `detect_filler_loop` (`model_cache.rs` lines 40–66): four or more filler
phrases in the lower-cased text. -/
def detectFillerLoop (text : List Char) : Bool :=
  let lower := toLowerStr text
  decide (4 ≤ (fillerPatterns.map (fun p => countOccur p lower)).sum)

/-- `detect_sentence_repetition` (`model_cache.rs` lines 69–98): split on
`.`/`!`/`?` (keeping empty pieces, as Rust `split` does), trim, keep only
sentences longer than 50 bytes; with at least six of them, normalise
(lower-case, collapse whitespace) and report whether some normalised sentence
longer than 40 bytes occurs at least three times. -/
def splitAnyAux (isSep : Char → Bool) : List Char → List Char → List (List Char)
  | [], acc => [acc.reverse]
  | c :: cs, acc =>
    if isSep c then acc.reverse :: splitAnyAux isSep cs []
    else splitAnyAux isSep cs (c :: acc)

def sentenceSep (c : Char) : Bool := c == '.' || c == '!' || c == '?'

def detectSentenceRepetition (text : List Char) : Bool :=
  let sentences := ((splitAnyAux sentenceSep text []).map trimChars).filter
    (fun s => decide (byteLen s > 50))
  if sentences.length < 6 then false
  else
    let normalized := sentences.map (fun s => joinSpace (splitWhitespaceChars (toLowerStr s)))
    let tracked := normalized.filter (fun n => decide (byteLen n > 40))
    tracked.any (fun n => decide (3 ≤ tracked.count n))

/-- `detect_block_repetition` (`model_cache.rs` lines 101–124): for window
sizes 100, 150, 200 whose doubled size fits the text, byte-slice the last
`window` bytes and search for them earlier; the byte slicing panics
(`none`) when `len - window` falls inside a multi-byte character. -/
def detectBlockRepetitionLoop (text : List Char) (len : Nat) : List Nat → Option Bool
  | [] => some false
  | w :: ws =>
    if len < w * 2 then detectBlockRepetitionLoop text len ws
    else
      match byteDrop text (len - w), byteTake text (len - w) with
      | some lastBlock, some searchArea =>
        if containsSub searchArea lastBlock then some true
        else detectBlockRepetitionLoop text len ws
      | _, _ => none

def detectBlockRepetition (text : List Char) : Option Bool :=
  let len := byteLen text
  if len < 200 then some false
  else detectBlockRepetitionLoop text len [100, 150, 200]

/-- `detect_prompt_echo` (`model_cache.rs` lines 127–131). -/
def imStartMarker : List Char := ("<|im_start|>").data

def imEndMarker : List Char := ("<|im_end|>").data

def detectPromptEcho (text : List Char) : Bool :=
  containsSub text imStartMarker || containsSub text imEndMarker

/-! ## Claim C10 (`detect_block_repetition` totality) -/

/-- 100 ASCII bytes followed by 50 three-byte characters: 250 bytes in all,
and `len - 100 = 150` falls inside the 17th `'€'`. -/
def c10FailingInput : List Char := List.replicate 100 'a' ++ List.replicate 50 '€'

set_option maxRecDepth 20000 in
/-- C10: `detect_block_repetition` is **not** total — on `c10FailingInput`
the slice `&text[len - 100..]` starts inside a multi-byte character and the
Rust code panics (modelled by `none`); on all-ASCII input of the same shape
it returns a boolean as the claim expects.  The claim matches the intended
behaviour (the detectors are meant to be pure total functions over the
output accumulated so far); the byte-offset slicing is the code's slip. -/
theorem c10_block_repetition_panics :
    detectBlockRepetition c10FailingInput = none ∧
    detectBlockRepetition (List.replicate 300 'a') = some true := by
  constructor <;> decide

/-! ## Streaming generation (`model_cache.rs`, `CachedModel::generate` lines
268–424 and `CachedModel::generate_streaming` lines 427–743)

The llama.cpp primitives are abstracted as oracles: `sample i` is the token
the sampler chain produces at loop iteration `i` (the chain is deterministic
and both runs being compared follow the same accepted-token history),
`tokenToStr` is `token_to_str` (whose errors the source maps to the empty
string with `unwrap_or_else`), `cb` tells whether the `on_token_batch`
callback succeeds, `decodeOk i` whether `context.decode` succeeds at
iteration `i`, and `stopFlag t` is the value of the shared atomic stop flag
at its `t`-th read — the loop polls it four times per iteration (before
sampling, after sampling, before emitting the buffer, after emitting), so
iteration `i` reads polls `4*i .. 4*i+3`.  The prompt-cache hash bookkeeping
(lines 448–523), which the spec itself calls purely advisory telemetry, and
all logging are omitted. -/

inductive GenError where
  | invalidMaxTokens
  | contextFailed
  | tokenizationFailed
  | promptTooLarge
  | callbackFailed
  | decodeFailed
deriving DecidableEq

inductive StopReason where
  | userPre
  | userPostSample
  | userPreBuffer
  | userPostBuffer
  | eog
  | stopMarker
  | promptEcho
  | blockRepetition
  | fillerLoop
  | sentenceRepetition
  | similarityLoop
  | maxTokensReached
deriving DecidableEq

structure StreamOracle where
  sample : Nat → Int
  isEog : Int → Bool
  tokenToStr : Int → List Char
  stopFlag : Nat → Bool
  cb : List Char → Bool
  decodeOk : Nat → Bool

/-- The mutable state of the `generate_streaming` token loop (lines
536–548): the accumulated response, the emission buffer, the repetition
window, the similarity-loop counter, the token count, the trace of strings
passed to `on_token_batch`, and the iteration index. -/
structure GenState where
  response : List Char
  tokenBuffer : List Char
  recentText : List Char
  repetitionCount : Nat
  nTokens : Nat
  emitted : List (List Char)
  i : Nat
deriving DecidableEq

def initGenState : GenState := ⟨[], [], [], 0, 0, [], 0⟩

inductive LoopOut where
  | done (st : GenState) (reason : StopReason)
  | failed (e : GenError) (st : GenState)
  | panicked
deriving DecidableEq

/-- The explicit stop-marker substrings checked on each decoded piece
(lines 588–590). -/
def stopMarkers : List (List Char) :=
  [("</s>").data, ("<|endoftext|>").data, ("<|end|>").data,
   ("<|im_end|>").data, ("<|im_start|>").data]

/-- The flush-then-break idiom `if !token_buffer.is_empty() {
on_token_batch(&token_buffer)?; }` used by every early exit of the loop. -/
def flushBuf (or : StreamOracle) (st : GenState) : Option GenState :=
  if st.tokenBuffer.isEmpty then some st
  else if or.cb st.tokenBuffer then some { st with emitted := st.emitted ++ [st.tokenBuffer] }
  else none

/-- Appending a decoded piece to the loop state (lines 603–611): extend the
response, the buffer and the repetition window (trimmed — as in the source —
by dropping `byte_len - 100` *characters* when the window exceeds 100
*bytes*), and count the token. -/
def pushPiece (st : GenState) (piece : List Char) : GenState :=
  let recent := st.recentText ++ piece
  let recent :=
    if byteLen recent > 100 then recent.drop (byteLen recent - 100) else recent
  { st with
    response := st.response ++ piece
    tokenBuffer := st.tokenBuffer ++ piece
    recentText := recent
    nTokens := st.nTokens + 1 }

/-- The four sequential degeneracy checks of lines 616–649, entered only when
`i % 10 == 0 && response.len() > 200`; `none` models the panic that
`detect_block_repetition` can raise, `some (some r)` an early stop. -/
def degeneracyCheck (response : List Char) : Option (Option StopReason) :=
  if detectPromptEcho response then some (some .promptEcho)
  else if byteLen response > 300 then
    match detectBlockRepetition response with
    | none => none
    | some true => some (some .blockRepetition)
    | some false => some (degeneracyCheckTail response)
  else some (degeneracyCheckTail response)
where
  degeneracyCheckTail (response : List Char) : Option StopReason :=
    if byteLen response > 500 && detectFillerLoop response then some .fillerLoop
    else if byteLen response > 400 && detectSentenceRepetition response then
      some .sentenceRepetition
    else none

/-- The similarity-based repetition check of lines 653–681, entered only when
`i % 10 == 0 && response.len() > 200`: compare the most recent 100-byte
window with the 100 bytes before it; three consecutive windows above `0.7`
similarity stop generation.  Returns the updated `repetition_count` and
whether to stop; `none` models the byte-slicing panic. -/
def similarityCheck (response recentText : List Char) (repCount : Nat) :
    Option (Nat × Bool) :=
  let len := byteLen response
  if len > 200 then
    match byteSlice response (len - 200) (len - 100) with
    | none => none
    | some earlier =>
      if byteLen recentText ≥ 40 ∧ byteLen earlier ≥ 40 then
        if similarTextFraction earlier recentText > 7/10 then
          if repCount + 1 ≥ 3 then some (repCount + 1, true) else some (repCount + 1, false)
        else some (0, false)
      else some (repCount, false)
  else some (repCount, false)

/-- One-shot flush-and-stop: the value every early `break` of the loop
produces. -/
def stopWith (or : StreamOracle) (st : GenState) (r : StopReason) : LoopOut :=
  match flushBuf or st with
  | none => .failed .callbackFailed st
  | some st' => .done st' r

/-- The buffered emission of lines 694–697: hand the buffer to the callback
and clear it when it has at least `BUFFER_SIZE = 2` characters or this is the
final iteration; `none` models a callback failure. -/
def emitStep (or : StreamOracle) (maxTokens : Nat) (st : GenState) : Option GenState :=
  if st.tokenBuffer.length ≥ 2 ∨ st.i = maxTokens - 1 then
    if or.cb st.tokenBuffer then
      some { st with emitted := st.emitted ++ [st.tokenBuffer], tokenBuffer := [] }
    else none
  else some st

/-- The token loop of `generate_streaming` (`model_cache.rs` lines 550–715),
translated check for check; `fuel` counts the remaining iterations of
`for i in 0..max_tokens` (initially `maxTokens`, with `st.i = 0`). -/
def genLoop (or : StreamOracle) (maxTokens : Nat) : Nat → GenState → LoopOut
  | 0, st => .done st .maxTokensReached
  | fuel + 1, st =>
    let i := st.i
    if or.stopFlag (4 * i) then stopWith or st .userPre
    else
      let newToken := or.sample i
      if or.stopFlag (4 * i + 1) then stopWith or st .userPostSample
      else if or.isEog newToken then stopWith or st .eog
      else
        let tokenStr := or.tokenToStr newToken
        if stopMarkers.any (fun m => containsSub tokenStr m) then stopWith or st .stopMarker
        else
          let st1 := pushPiece st tokenStr
          let deg :=
            if i % 10 = 0 ∧ byteLen st1.response > 200 then degeneracyCheck st1.response
            else some none
          match deg with
          | none => .panicked
          | some (some r) => stopWith or st1 r
          | some none =>
            let sim :=
              if i % 10 = 0 ∧ byteLen st1.response > 200 then
                similarityCheck st1.response st1.recentText st1.repetitionCount
              else some (st1.repetitionCount, false)
            match sim with
            | none => .panicked
            | some (newCount, simStop) =>
              let st2 := { st1 with repetitionCount := newCount }
              if simStop then stopWith or st2 .similarityLoop
              else if or.stopFlag (4 * i + 2) then stopWith or st2 .userPreBuffer
              else
                match emitStep or maxTokens st2 with
                | none => .failed .callbackFailed st2
                | some st3 =>
                  if or.stopFlag (4 * i + 3) then .done st3 .userPostBuffer
                  else if or.decodeOk i then
                    genLoop or maxTokens fuel { st3 with i := i + 1 }
                  else .failed .decodeFailed st3

/-- The result of one `generate_streaming` call: the returned
`Result<String>`, the strings handed to `on_token_batch`, and the number of
sampled-and-accepted tokens.  `none` models a panic inside the loop. -/
structure PipeOut where
  result : Except GenError (List Char)
  emitted : List (List Char)
  nTokens : Nat

instance : DecidableEq (Except GenError (List Char)) := fun a b =>
  match a, b with
  | .ok x, .ok y => decidable_of_iff (x = y) (by simp)
  | .error x, .error y => decidable_of_iff (x = y) (by simp)
  | .ok _, .error _ => isFalse (by simp)
  | .error _, .ok _ => isFalse (by simp)

instance : DecidableEq PipeOut := fun a b =>
  decidable_of_iff (a.result = b.result ∧ a.emitted = b.emitted ∧ a.nTokens = b.nTokens)
    (by cases a; cases b; simp_all [PipeOut.mk.injEq])

/-- `CachedModel::generate_streaming` (lines 427–743): validate `max_tokens`,
create the context, tokenize, apply the 7000-token prompt guard, ingest the
prompt (`promptDecodeOk` abstracts the batch decodes of lines 491–505), then
run the token loop; every loop exit reason — including all degeneracy stops —
returns `Ok(response)`. -/
def genStreamingPipeline (or : StreamOracle) (tokens : Option (List Int))
    (ctxOk promptDecodeOk : Bool) (maxTokens : Nat) : Option PipeOut :=
  if maxTokens = 0 then some ⟨.error .invalidMaxTokens, [], 0⟩
  else if !ctxOk then some ⟨.error .contextFailed, [], 0⟩
  else
    match tokens with
    | none => some ⟨.error .tokenizationFailed, [], 0⟩
    | some ts =>
      if ts.length > 7000 then some ⟨.error .promptTooLarge, [], 0⟩
      else if !promptDecodeOk then some ⟨.error .decodeFailed, [], 0⟩
      else
        match genLoop or maxTokens maxTokens initGenState with
        | .done st _ => some ⟨.ok st.response, st.emitted, st.nTokens⟩
        | .failed e st => some ⟨.error e, st.emitted, st.nTokens⟩
        | .panicked => none

structure SimpleOracle where
  sample : Nat → Int
  isEog : Int → Bool
  tokenToStr : Int → List Char
  decodeOk : Nat → Bool

/-- The token loop of the non-streaming `CachedModel::generate`
(`model_cache.rs` lines 382–410). -/
def genSimpleLoop (or : SimpleOracle) : Nat → Nat → List Char → Except GenError (List Char)
  | 0, _, response => .ok response
  | fuel + 1, i, response =>
    let t := or.sample i
    if or.isEog t then .ok response
    else
      let piece := or.tokenToStr t
      if or.decodeOk i then genSimpleLoop or fuel (i + 1) (response ++ piece)
      else .error .decodeFailed

/-- `CachedModel::generate` (lines 268–424): same validation, context
creation, tokenization and 7000-token prompt guard as the streaming path,
then the simple token loop. -/
def generatePipeline (or : SimpleOracle) (tokens : Option (List Int))
    (ctxOk promptDecodeOk : Bool) (maxTokens : Nat) : Except GenError (List Char) :=
  if maxTokens = 0 then .error .invalidMaxTokens
  else if !ctxOk then .error .contextFailed
  else
    match tokens with
    | none => .error .tokenizationFailed
    | some ts =>
      if ts.length > 7000 then .error .promptTooLarge
      else if !promptDecodeOk then .error .decodeFailed
      else genSimpleLoop or maxTokens 0 []

/-- What `flushBuf` produces when the callback succeeds. -/
def flushedState (st : GenState) : GenState :=
  if st.tokenBuffer.isEmpty then st
  else { st with emitted := st.emitted ++ [st.tokenBuffer] }

theorem flushBuf_of_cb (or : StreamOracle) (st : GenState)
    (hcb : ∀ s, or.cb s = true) : flushBuf or st = some (flushedState st) := by
  unfold flushBuf flushedState
  split
  · rfl
  · rw [hcb]
    simp

theorem stopWith_of_cb (or : StreamOracle) (st : GenState) (r : StopReason)
    (hcb : ∀ s, or.cb s = true) : stopWith or st r = .done (flushedState st) r := by
  unfold stopWith
  rw [flushBuf_of_cb or st hcb]

/-- The pre-sampling cancellation check (lines 551–560): a set flag flushes
the buffer and stops, independently of the sampler. -/
theorem genLoop_userPre (or : StreamOracle) (maxTokens fuel : Nat) (st : GenState)
    (hcb : ∀ s, or.cb s = true) (h : or.stopFlag (4 * st.i) = true) :
    genLoop or maxTokens (fuel + 1) st = .done (flushedState st) .userPre := by
  simp only [genLoop]
  rw [if_pos h]
  exact stopWith_of_cb or st _ hcb

/-- The post-sampling cancellation check (lines 564–573): with the flag read
as false before sampling and true right after it, the sampled token is
discarded (not appended, not counted), the buffer is flushed and the loop
stops. -/
theorem genLoop_userPostSample (or : StreamOracle) (maxTokens fuel : Nat) (st : GenState)
    (hcb : ∀ s, or.cb s = true) (h0 : or.stopFlag (4 * st.i) = false)
    (h1 : or.stopFlag (4 * st.i + 1) = true) :
    genLoop or maxTokens (fuel + 1) st = .done (flushedState st) .userPostSample := by
  simp only [genLoop]
  rw [if_neg (by simp [h0]), if_pos h1]
  exact stopWith_of_cb or st _ hcb

/-- The pre-buffer-emission cancellation check (lines 684–692): with the
first two polls false and the third true, on an iteration that samples an
ordinary token (no end-of-generation, no stop marker, `i % 10 ≠ 0` so the
periodic degeneracy block is skipped), the piece is appended to the response,
the buffer (including the piece) is flushed, and the loop stops. -/
theorem genLoop_userPreBuffer (or : StreamOracle) (maxTokens fuel : Nat) (st : GenState)
    (hcb : ∀ s, or.cb s = true) (h0 : or.stopFlag (4 * st.i) = false)
    (h1 : or.stopFlag (4 * st.i + 1) = false) (h2 : or.stopFlag (4 * st.i + 2) = true)
    (heog : or.isEog (or.sample st.i) = false)
    (hmark : stopMarkers.any (fun m => containsSub (or.tokenToStr (or.sample st.i)) m) = false)
    (hmod : st.i % 10 ≠ 0) :
    genLoop or maxTokens (fuel + 1) st =
      .done (flushedState (pushPiece st (or.tokenToStr (or.sample st.i)))) .userPreBuffer := by
  simp only [genLoop]
  rw [if_neg (by simp [h0]), if_neg (by simp [h1]), if_neg (by simp [heog]),
    if_neg (by simp [hmark])]
  rw [if_neg (by simp [hmod]), if_neg (by simp [hmod])]
  simp only
  rw [if_neg (by simp), if_pos h2]
  have : { pushPiece st (or.tokenToStr (or.sample st.i)) with
      repetitionCount := (pushPiece st (or.tokenToStr (or.sample st.i))).repetitionCount } =
      pushPiece st (or.tokenToStr (or.sample st.i)) := rfl
  rw [this]
  exact stopWith_of_cb or _ _ hcb

theorem isPrefixChars_iff (a b : List Char) :
    isPrefixChars a b = true ↔ ∃ t, b = a ++ t := by
  induction a generalizing b with
  | nil => simp [isPrefixChars]
  | cons x xs ih =>
    cases b with
    | nil =>
      simp only [isPrefixChars]
      constructor
      · intro h
        cases h
      · rintro ⟨t, ht⟩
        cases ht
    | cons y ys =>
      simp only [isPrefixChars, Bool.and_eq_true, beq_iff_eq, ih, List.cons_append,
        List.cons.injEq]
      constructor
      · rintro ⟨rfl, t, rfl⟩
        exact ⟨t, rfl, rfl⟩
      · rintro ⟨t, rfl, rfl⟩
        exact ⟨rfl, t, rfl⟩

theorem flushBuf_response (or : StreamOracle) (st s : GenState)
    (h : flushBuf or st = some s) : s.response = st.response := by
  unfold flushBuf at h
  split at h
  · cases h
    rfl
  · split at h
    · cases h
      rfl
    · cases h

theorem stopWith_done (or : StreamOracle) (st : GenState) (r : StopReason)
    (st' : GenState) (r' : StopReason) (h : stopWith or st r = .done st' r') :
    st'.response = st.response ∧ r' = r := by
  unfold stopWith at h
  cases hf : flushBuf or st with
  | none =>
    rw [hf] at h
    cases h
  | some s =>
    rw [hf] at h
    cases h
    exact ⟨flushBuf_response or st _ hf, rfl⟩

theorem pushPiece_response (st : GenState) (p : List Char) :
    (pushPiece st p).response = st.response ++ p := rfl

theorem emitStep_response (or : StreamOracle) (maxTokens : Nat) (st s : GenState)
    (h : emitStep or maxTokens st = some s) : s.response = st.response := by
  unfold emitStep at h
  split at h
  · split at h
    · cases h
      rfl
    · cases h
  · cases h
    rfl

/-- Along any run of the token loop the response only ever grows by
appending: whatever state the loop is started in, the final response extends
the starting response. -/
theorem genLoop_response_extends (or : StreamOracle) (maxTokens : Nat) :
    ∀ (fuel : Nat) (st st' : GenState) (r' : StopReason),
      genLoop or maxTokens fuel st = .done st' r' →
      ∃ t, st'.response = st.response ++ t := by
  intro fuel
  induction fuel with
  | zero =>
    intro st st' r' h
    cases h
    exact ⟨[], by simp⟩
  | succ n ih =>
    intro st st' r' h
    simp only [genLoop] at h
    split at h
    · obtain ⟨hresp, -⟩ := stopWith_done _ _ _ _ _ h
      exact ⟨[], by simp [hresp]⟩
    · split at h
      · obtain ⟨hresp, -⟩ := stopWith_done _ _ _ _ _ h
        exact ⟨[], by simp [hresp]⟩
      · split at h
        · obtain ⟨hresp, -⟩ := stopWith_done _ _ _ _ _ h
          exact ⟨[], by simp [hresp]⟩
        · split at h
          · obtain ⟨hresp, -⟩ := stopWith_done _ _ _ _ _ h
            exact ⟨[], by simp [hresp]⟩
          · split at h
            · exact LoopOut.noConfusion h
            · obtain ⟨hresp, -⟩ := stopWith_done _ _ _ _ _ h
              rw [pushPiece_response] at hresp
              exact ⟨_, hresp⟩
            · split at h
              · exact LoopOut.noConfusion h
              · rename_i newCount simStop heqsim
                split at h
                · obtain ⟨hresp, -⟩ := stopWith_done _ _ _ _ _ h
                  rw [show ({ pushPiece st (or.tokenToStr (or.sample st.i)) with
                        repetitionCount := newCount } : GenState).response =
                      (pushPiece st (or.tokenToStr (or.sample st.i))).response from rfl,
                    pushPiece_response] at hresp
                  exact ⟨_, hresp⟩
                · split at h
                  · obtain ⟨hresp, -⟩ := stopWith_done _ _ _ _ _ h
                    rw [show ({ pushPiece st (or.tokenToStr (or.sample st.i)) with
                          repetitionCount := newCount } : GenState).response =
                        (pushPiece st (or.tokenToStr (or.sample st.i))).response from rfl,
                      pushPiece_response] at hresp
                    exact ⟨_, hresp⟩
                  · split at h
                    · exact LoopOut.noConfusion h
                    · rename_i st3 heq3
                      have hresp3 : st3.response = st.response ++
                          or.tokenToStr (or.sample st.i) := by
                        rw [emitStep_response or maxTokens _ st3 heq3]
                        exact pushPiece_response st _
                      split at h
                      · cases h
                        exact ⟨_, hresp3⟩
                      · split at h
                        · obtain ⟨t, ht⟩ := ih _ _ _ h
                          refine ⟨or.tokenToStr (or.sample st.i) ++ t, ?_⟩
                          rw [ht]
                          show st3.response ++ t = _
                          rw [hresp3, List.append_assoc]
                        · exact LoopOut.noConfusion h

theorem emitStep_cb_congr (or or' : StreamOracle) (maxTokens : Nat) (st : GenState)
    (hcb : or'.cb = or.cb) : emitStep or' maxTokens st = emitStep or maxTokens st := by
  unfold emitStep
  rw [hcb]

/-- The cancelled-run/uncancelled-run comparison: run the token loop from
the same state with the same sampler, decoder and callback, once with an
arbitrary stop flag and once with the flag never set.  Whenever both runs
return, the cancelled run's response is a prefix of the uncancelled run's
response: every cancellation point stops with a response the uncancelled run
also passes through, and responses only ever grow by appending. -/
theorem genLoop_cancel_prefix (or or' : StreamOracle) (maxTokens : Nat)
    (hsample : or'.sample = or.sample) (heog : or'.isEog = or.isEog)
    (hstr : or'.tokenToStr = or.tokenToStr) (hcb : or'.cb = or.cb)
    (hdec : or'.decodeOk = or.decodeOk) (hflag : ∀ t, or'.stopFlag t = false) :
    ∀ (fuel : Nat) (st st1 st2 : GenState) (r1 r2 : StopReason),
      genLoop or maxTokens fuel st = .done st1 r1 →
      genLoop or' maxTokens fuel st = .done st2 r2 →
      ∃ t, st2.response = st1.response ++ t := by
  intro fuel
  induction fuel with
  | zero =>
    intro st st1 st2 r1 r2 h1 h2
    cases h1
    cases h2
    exact ⟨[], by simp⟩
  | succ n ih =>
    intro st st1 st2 r1 r2 h1 h2
    have hext := genLoop_response_extends or' maxTokens (n + 1) st st2 r2 h2
    simp only [genLoop] at h1
    simp only [genLoop, hsample, heog, hstr, hcb, hdec, hflag, Bool.false_eq_true,
      if_false] at h2
    split at h1
    · obtain ⟨hr1, -⟩ := stopWith_done _ _ _ _ _ h1
      rw [hr1]
      exact hext
    · split at h1
      · obtain ⟨hr1, -⟩ := stopWith_done _ _ _ _ _ h1
        rw [hr1]
        exact hext
      · split at h1
        · rename_i hce
          obtain ⟨hr1, -⟩ := stopWith_done _ _ _ _ _ h1
          simp only [hce, eq_self_iff_true, if_true] at h2
          obtain ⟨hr2, -⟩ := stopWith_done _ _ _ _ _ h2
          rw [hr1, hr2]
          exact ⟨[], by simp⟩
        · rename_i hce
          simp only [hce, Bool.false_eq_true, if_false] at h2
          split at h1
          · rename_i hcm
            obtain ⟨hr1, -⟩ := stopWith_done _ _ _ _ _ h1
            simp only [hcm, eq_self_iff_true, if_true] at h2
            obtain ⟨hr2, -⟩ := stopWith_done _ _ _ _ _ h2
            rw [hr1, hr2]
            exact ⟨[], by simp⟩
          · rename_i hcm
            simp only [hcm, Bool.false_eq_true, if_false] at h2
            split at h1
            · exact LoopOut.noConfusion h1
            · rename_i r hdeg
              obtain ⟨hr1, -⟩ := stopWith_done _ _ _ _ _ h1
              simp only [hdeg] at h2
              obtain ⟨hr2, -⟩ := stopWith_done _ _ _ _ _ h2
              rw [hr1, hr2]
              exact ⟨[], by simp⟩
            · rename_i hdeg
              simp only [hdeg] at h2
              split at h1
              · exact LoopOut.noConfusion h1
              · rename_i newCount simStop heqsim
                simp only [heqsim] at h2
                split at h1
                · rename_i hss
                  obtain ⟨hr1, -⟩ := stopWith_done _ _ _ _ _ h1
                  rw [if_pos hss] at h2
                  obtain ⟨hr2, -⟩ := stopWith_done _ _ _ _ _ h2
                  rw [hr1, hr2]
                  exact ⟨[], by simp⟩
                · rename_i hss
                  rw [if_neg hss] at h2
                  split at h1
                  · rename_i hc2
                    obtain ⟨hr1, -⟩ := stopWith_done _ _ _ _ _ h1
                    split at h2
                    · exact LoopOut.noConfusion h2
                    · rename_i st3 heq3
                      have hr3 := emitStep_response _ maxTokens _ st3 heq3
                      split at h2
                      · obtain ⟨t, ht⟩ := genLoop_response_extends or' maxTokens n _ st2 r2 h2
                        refine ⟨t, ?_⟩
                        rw [ht, hr1]
                        show st3.response ++ t = _
                        rw [hr3]
                      · exact LoopOut.noConfusion h2
                  · rename_i hc2
                    split at h1
                    · exact LoopOut.noConfusion h1
                    · rename_i st3 heq3
                      rw [emitStep_cb_congr or or' maxTokens _ hcb] at h2
                      simp only [heq3] at h2
                      split at h1
                      · cases h1
                        split at h2
                        · obtain ⟨t, ht⟩ :=
                            genLoop_response_extends or' maxTokens n _ st2 r2 h2
                          exact ⟨t, ht⟩
                        · exact LoopOut.noConfusion h2
                      · split at h1
                        · rename_i hcd
                          rw [if_pos hcd] at h2
                          exact ih _ _ _ _ _ h1 h2
                        · exact LoopOut.noConfusion h1

/-! ## Claim C5 (cooperative cancellation in `generate_streaming`) -/

/-- C5: in every iteration of the token loop the shared stop flag is read
before sampling, immediately after sampling, and before emitting the
buffered output (polls `4i`, `4i+1`, `4i+2`); whenever one of these checks
observes the flag set, the buffered partial output is flushed to the
callback (`flushedState`) and generation stops with the corresponding
reason — in particular nothing is sampled after the first positive check and
the response gains at most the current piece.  A cancelled run's response is
always a prefix of the same call run without cancellation.  And if the flag
is set before any tokens are emitted, `generate_streaming` returns
immediately with zero sampled tokens, zero callback emissions and the empty
response. -/
theorem c5_cancellation :
    (∀ (or : StreamOracle) (maxTokens fuel : Nat) (st : GenState), (∀ s, or.cb s = true) →
      (or.stopFlag (4 * st.i) = true →
        genLoop or maxTokens (fuel + 1) st = .done (flushedState st) .userPre) ∧
      (or.stopFlag (4 * st.i) = false → or.stopFlag (4 * st.i + 1) = true →
        genLoop or maxTokens (fuel + 1) st = .done (flushedState st) .userPostSample) ∧
      (or.stopFlag (4 * st.i) = false → or.stopFlag (4 * st.i + 1) = false →
       or.stopFlag (4 * st.i + 2) = true → or.isEog (or.sample st.i) = false →
       stopMarkers.any (fun m => containsSub (or.tokenToStr (or.sample st.i)) m) = false →
       st.i % 10 ≠ 0 →
        genLoop or maxTokens (fuel + 1) st =
          .done (flushedState (pushPiece st (or.tokenToStr (or.sample st.i))))
            .userPreBuffer)) ∧
    (∀ (or or' : StreamOracle) (maxTokens fuel : Nat) (st st1 st2 : GenState)
       (r1 r2 : StopReason),
       or'.sample = or.sample → or'.isEog = or.isEog → or'.tokenToStr = or.tokenToStr →
       or'.cb = or.cb → or'.decodeOk = or.decodeOk → (∀ t, or'.stopFlag t = false) →
       genLoop or maxTokens fuel st = .done st1 r1 →
       genLoop or' maxTokens fuel st = .done st2 r2 →
       isPrefixChars st1.response st2.response = true) ∧
    (∀ (or : StreamOracle) (tokens : List Int) (maxTokens : Nat),
      (∀ t, or.stopFlag t = true) → (∀ s, or.cb s = true) → maxTokens ≠ 0 →
      tokens.length ≤ 7000 →
      genStreamingPipeline or (some tokens) true true maxTokens = some ⟨.ok [], [], 0⟩) := by
  refine ⟨?_, ?_, ?_⟩
  · intro or maxTokens fuel st hcb
    exact ⟨genLoop_userPre or maxTokens fuel st hcb,
      genLoop_userPostSample or maxTokens fuel st hcb,
      fun h0 h1 h2 heog hmark hmod =>
        genLoop_userPreBuffer or maxTokens fuel st hcb h0 h1 h2 heog hmark hmod⟩
  · intro or or' maxTokens fuel st st1 st2 r1 r2 hs he ht hc hd hf h1 h2
    obtain ⟨t, htt⟩ :=
      genLoop_cancel_prefix or or' maxTokens hs he ht hc hd hf fuel st st1 st2 r1 r2 h1 h2
    exact (isPrefixChars_iff _ _).mpr ⟨t, htt⟩
  · intro or tokens maxTokens hflag hcb hmt hlen
    unfold genStreamingPipeline
    rw [if_neg hmt]
    simp only [Bool.not_true, Bool.false_eq_true, if_false]
    rw [if_neg (by omega)]
    obtain ⟨n, rfl⟩ : ∃ n, maxTokens = n + 1 := ⟨maxTokens - 1, by omega⟩
    rw [genLoop_userPre or (n + 1) n initGenState hcb (hflag _)]
    rfl

/-- The all-true stop flag: set before the call starts. -/
def stopNowOracle : StreamOracle where
  sample := fun _ => 0
  isEog := fun _ => false
  tokenToStr := fun _ => ("xy").data
  stopFlag := fun _ => true
  cb := fun _ => true
  decodeOk := fun _ => true

/-- A run cancelled from poll 4 onwards: iteration 0 completes (emitting
`"ab"`), then the pre-sampling check of iteration 1 stops the run. -/
def cancelAfterOracle : StreamOracle where
  sample := fun _ => 0
  isEog := fun _ => false
  tokenToStr := fun _ => ("ab").data
  stopFlag := fun t => decide (4 ≤ t)
  cb := fun _ => true
  decodeOk := fun _ => true

/-- The same call with the stop flag never set. -/
def freeRunOracle : StreamOracle :=
  { cancelAfterOracle with stopFlag := fun _ => false }

def cancelRunState : GenState :=
  match genLoop cancelAfterOracle 3 3 initGenState with
  | .done st _ => st
  | .failed _ st => st
  | .panicked => initGenState

def freeRunState : GenState :=
  match genLoop freeRunOracle 3 3 initGenState with
  | .done st _ => st
  | .failed _ st => st
  | .panicked => initGenState

/-- Witness for `c5_cancellation`: with the stop flag set from the start, a
5-token call over a 2-token prompt returns `Ok("")` with no emissions and no
sampled tokens, and the loop stops at the pre-sampling check with the state
untouched; and a run cancelled after one token produced `"ab"`, a prefix of
the uncancelled run's `"ababab"`. -/
theorem c5_witness :
    genStreamingPipeline stopNowOracle (some [0, 1]) true true 5 = some ⟨.ok [], [], 0⟩ ∧
    genLoop stopNowOracle 5 5 initGenState = .done initGenState .userPre ∧
    cancelRunState.response = ("ab").data ∧
    freeRunState.response = ("ababab").data ∧
    isPrefixChars cancelRunState.response freeRunState.response = true := by
  refine ⟨?_, ?_, by decide, by decide, ?_⟩
  · exact c5_cancellation.2.2 stopNowOracle [0, 1] 5 (fun _ => rfl) (fun _ => rfl)
      (by omega) (by decide)
  · exact (c5_cancellation.1 stopNowOracle 5 4 initGenState (fun _ => rfl)).1 rfl
  · exact c5_cancellation.2.1 cancelAfterOracle freeRunOracle 3 3 initGenState
      cancelRunState freeRunState .userPre .maxTokensReached
      rfl rfl rfl rfl rfl (fun _ => rfl) (by decide) (by decide)

/-! ## Claim C4 (7000-token prompt guard) -/

/-- C4: whenever the tokenized prompt exceeds 7000 tokens, both `generate`
(line 316) and `generate_streaming` (line 481) fail with the
prompt-too-large error: the result is that error — never an `Ok` with a
truncated prompt — no callback emission happens and no token is sampled
(`maxTokens ≠ 0` keeps the earlier `max_tokens` validation, which rejects the
call before the prompt is even looked at, out of the way). -/
theorem c4_prompt_too_large (sor : SimpleOracle) (or : StreamOracle)
    (ts : List Int) (pdkS pdk : Bool) (maxTokensS maxTokens : Nat)
    (hmtS : maxTokensS ≠ 0) (hmt : maxTokens ≠ 0) (hlen : 7000 < ts.length) :
    generatePipeline sor (some ts) true pdkS maxTokensS = .error .promptTooLarge ∧
    genStreamingPipeline or (some ts) true pdk maxTokens =
      some ⟨.error .promptTooLarge, [], 0⟩ := by
  constructor
  · unfold generatePipeline
    rw [if_neg hmtS]
    simp only [Bool.not_true, Bool.false_eq_true, if_false]
    rw [if_pos hlen]
  · unfold genStreamingPipeline
    rw [if_neg hmt]
    simp only [Bool.not_true, Bool.false_eq_true, if_false]
    rw [if_pos hlen]

def plainSimpleOracle : SimpleOracle where
  sample := fun _ => 0
  isEog := fun _ => false
  tokenToStr := fun _ => ("a").data
  decodeOk := fun _ => true

/-- Witness for `c4_prompt_too_large`: a 7001-token prompt is rejected by
both generation paths. -/
theorem c4_witness :
    generatePipeline plainSimpleOracle (some (List.replicate 7001 0)) true true 5 =
      .error .promptTooLarge ∧
    genStreamingPipeline stopNowOracle (some (List.replicate 7001 0)) true true 5 =
      some ⟨.error .promptTooLarge, [], 0⟩ :=
  c4_prompt_too_large plainSimpleOracle stopNowOracle (List.replicate 7001 0) true true 5 5
    (by omega) (by omega) (by rw [List.length_replicate]; omega)

/-! ## Claim C9 (degeneracy stops are successes) -/

/-- The five degeneracy stop reasons (prompt echo, block repetition,
filler-phrase loop, sentence repetition, similarity-window loop). -/
def degeneracyReasons : List StopReason :=
  [.promptEcho, .blockRepetition, .fillerLoop, .sentenceRepetition, .similarityLoop]

/-- C9: whenever the token loop stops for one of the five degeneracy
heuristics, `generate_streaming` returns `Ok` with the response accumulated
so far (together with everything emitted so far) — degeneracy stops `break`
out of the loop into the ordinary `Ok(response)` return (lines 613–681 and
742), they are never turned into errors. -/
theorem c9_degeneracy_is_success (or : StreamOracle) (tokens : List Int)
    (maxTokens : Nat) (st : GenState) (r : StopReason)
    (hmt : maxTokens ≠ 0) (hlen : tokens.length ≤ 7000)
    (hrun : genLoop or maxTokens maxTokens initGenState = .done st r)
    (hr : r ∈ degeneracyReasons) :
    genStreamingPipeline or (some tokens) true true maxTokens =
      some ⟨.ok st.response, st.emitted, st.nTokens⟩ := by
  unfold genStreamingPipeline
  rw [if_neg hmt]
  simp only [Bool.not_true, Bool.false_eq_true, if_false]
  rw [if_neg (by omega), hrun]

/-- A sampler whose decoded pieces reassemble the forbidden `<|im_start|>`
marker across token boundaries: no single piece contains a stop marker, but
the response does, so the prompt-echo heuristic fires at iteration 20 (the
first `i % 10 == 0` iteration with more than 200 bytes of response). -/
def echoOracle : StreamOracle where
  sample := fun i => Int.ofNat i
  isEog := fun _ => false
  tokenToStr := fun t => if t.toNat % 2 = 0 then ("<|im_").data else ("start|>abcdefgh").data
  stopFlag := fun _ => false
  cb := fun _ => true
  decodeOk := fun _ => true

/-- The state in which the prompt-echo run stops. -/
def echoRunState : GenState :=
  match genLoop echoOracle 30 30 initGenState with
  | .done st _ => st
  | .failed _ st => st
  | .panicked => initGenState

set_option maxRecDepth 40000 in
/-- Witness for `c9_degeneracy_is_success`: the prompt-echo run stops as a
degeneracy (reason `promptEcho`, after 21 tokens) and the pipeline returns
`Ok` of the text produced so far. -/
theorem c9_witness :
    genStreamingPipeline echoOracle (some [0]) true true 30 =
      some ⟨.ok echoRunState.response, echoRunState.emitted, echoRunState.nTokens⟩ :=
  c9_degeneracy_is_success echoOracle [0] 30 echoRunState .promptEcho
    (by omega) (by decide) (by decide) (by decide)

end Enklayve
